import Mathlib

/-!
Verification of the orryin-backend service against its specification.

Each Python function relevant to the checked claims is shallowly embedded
as an executable Lean definition operating on explicit data:

* `app/routers/kyc.py`: the 409-description applicant-id extractor, the
  idempotent applicant-creation handler, and the Sumsub webhook handler.
* `app/integrations/sumsub_webhook.py`: HMAC-SHA256 webhook signature
  verification (SHA-256 and HMAC are embedded in full, over `Nat` bytes).
* `app/routers/payments.py`: FX target-amount computation (Python
  `Decimal.quantize` with the default `ROUND_HALF_EVEN`) and the sandbox
  transfer handler.
* `app/integrations/wise_client.py`: the rate-response parsing of
  `get_rate` (list-or-object JSON shapes).
* `app/routers/brokerage.py`: the idempotent brokerage onboarding handler.

Python strings are modelled as `String`/`List Char`, raw bytes as
`List Nat` (each < 256), SQLAlchemy rows as structures, the database as a
list of rows, and outbound HTTP calls as explicit oracle arguments.
`fastapi.HTTPException` is modelled by `Except Nat` carrying the HTTP
status code.
-/

/-! ## Character classes (Python `re` classes `[a-zA-Z0-9]` and `\s`, and `str.strip`) -/

/-- The regex class `[a-zA-Z0-9]` used by `_extract_applicant_id_from_sumsub_409`. -/
def isAlnumChar (c : Char) : Bool :=
  ('a' ≤ c && c ≤ 'z') || ('A' ≤ c && c ≤ 'Z') || ('0' ≤ c && c ≤ '9')

/-- Python whitespace for `str.strip` and the regex class `\s` (ASCII range). -/
def isPySpace (c : Char) : Bool :=
  c == ' ' || c == '\t' || c == '\n' || c == '\r' || c == '\x0b' || c == '\x0c'

/-- Python `str.strip()`: remove leading and trailing whitespace. -/
def pyStrip (l : List Char) : List Char :=
  (((l.dropWhile isPySpace).reverse.dropWhile isPySpace)).reverse

/-! ## `_extract_applicant_id_from_sumsub_409` (app/routers/kyc.py lines 46-59) -/

/-- The literal `"already exists:"` of the regex in kyc.py line 54. -/
def alreadyExistsLit : List Char := "already exists:".toList

/-- `re.search(r"already exists:\s*([a-zA-Z0-9]+)\s*$", s)` on the stripped
description, returning the captured group.  The end-anchored pattern matches
exactly when, after dropping trailing whitespace, the text ends in a nonempty
alphanumeric run that is preceded (up to whitespace) by the literal
`"already exists:"`; the captured group is that trailing run.  The scan is
performed on the reversed character list. -/
def primary409 (s : List Char) : Option (List Char) :=
  let r := s.reverse.dropWhile isPySpace
  let tokRev := r.takeWhile isAlnumChar
  let rest := (r.dropWhile isAlnumChar).dropWhile isPySpace
  if tokRev ≠ [] && alreadyExistsLit.reverse.isPrefixOf rest then
    some tokRev.reverse
  else
    none

/-- `re.findall(r"[a-zA-Z0-9]+", s)` followed by `parts[-1] if parts else None`:
the last maximal alphanumeric run of the text, if any. -/
def lastAlnumToken (l : List Char) : Option (List Char) :=
  let tokRev := (l.reverse.dropWhile (fun c => !isAlnumChar c)).takeWhile isAlnumChar
  if tokRev = [] then none else some tokRev.reverse

/-- `_extract_applicant_id_from_sumsub_409` (kyc.py lines 46-59): `None` on the
empty description; otherwise the regex capture on the stripped description,
falling back to the last alphanumeric token of the original description. -/
def extract409 (description : List Char) : Option (List Char) :=
  if description = [] then none
  else
    match primary409 (pyStrip description) with
    | some t => some t
    | none => lastAlnumToken description

/-- String-level wrapper of `extract409`, the shape used by the handlers. -/
def extract409Str (description : String) : Option String :=
  (extract409 description.toList).map fun l => String.mk l

/-! ## SHA-256 and HMAC-SHA256 (Python `hashlib` / `hmac`), over `Nat` bytes -/

/-- 32-bit modulus. -/
def w32 : Nat := 4294967296

/-- Addition modulo 2^32. -/
def add32 (a b : Nat) : Nat := (a + b) % w32

/-- Bitwise complement of a 32-bit word. -/
def not32 (a : Nat) : Nat := Nat.xor a 4294967295

/-- Right rotation of a 32-bit word by `n` places. -/
def rotr32 (n x : Nat) : Nat := ((x >>> n) ||| (x <<< (32 - n))) % w32

/-- SHA-256 `Ch` function. -/
def shaCh (x y z : Nat) : Nat := Nat.xor (x &&& y) (not32 x &&& z)

/-- SHA-256 `Maj` function. -/
def shaMaj (x y z : Nat) : Nat := Nat.xor (Nat.xor (x &&& y) (x &&& z)) (y &&& z)

/-- SHA-256 big sigma 0. -/
def bigSigma0 (x : Nat) : Nat := Nat.xor (Nat.xor (rotr32 2 x) (rotr32 13 x)) (rotr32 22 x)

/-- SHA-256 big sigma 1. -/
def bigSigma1 (x : Nat) : Nat := Nat.xor (Nat.xor (rotr32 6 x) (rotr32 11 x)) (rotr32 25 x)

/-- SHA-256 small sigma 0. -/
def smallSigma0 (x : Nat) : Nat := Nat.xor (Nat.xor (rotr32 7 x) (rotr32 18 x)) (x >>> 3)

/-- SHA-256 small sigma 1. -/
def smallSigma1 (x : Nat) : Nat := Nat.xor (Nat.xor (rotr32 17 x) (rotr32 19 x)) (x >>> 10)

/-- The 64 SHA-256 round constants of FIPS 180-4, as decimal naturals. -/
def shaK : List Nat :=
  [1116352408, 1899447441, 3049323471, 3921009573, 961987163,
   1508970993, 2453635748, 2870763221, 3624381080, 310598401,
   607225278, 1426881987, 1925078388, 2162078206, 2614888103,
   3248222580, 3835390401, 4022224774, 264347078, 604807628,
   770255983, 1249150122, 1555081692, 1996064986, 2554220882,
   2821834349, 2952996808, 3210313671, 3336571891, 3584528711,
   113926993, 338241895, 666307205, 773529912, 1294757372,
   1396182291, 1695183700, 1986661051, 2177026350, 2456956037,
   2730485921, 2820302411, 3259730800, 3345764771, 3516065817,
   3600352804, 4094571909, 275423344, 430227734, 506948616,
   659060556, 883997877, 958139571, 1322822218, 1537002063,
   1747873779, 1955562222, 2024104815, 2227730452, 2361852424,
   2428436474, 2756734187, 3204031479, 3329325298]

/-- The eight SHA-256 initial hash words of FIPS 180-4, as decimal naturals. -/
def shaH0 : List Nat :=
  [1779033703, 3144134277, 1013904242, 2773480762,
   1359893119, 2600822924, 528734635, 1541459225]

/-- One step of message-schedule extension; the accumulator holds the schedule
so far most-recent first, so `W[t-2]`, `W[t-7]`, `W[t-15]`, `W[t-16]` are at
positions 1, 6, 14, 15. -/
def schedStep (l : List Nat) : List Nat :=
  add32 (add32 (smallSigma1 (l.getD 1 0)) (l.getD 6 0))
        (add32 (smallSigma0 (l.getD 14 0)) (l.getD 15 0)) :: l

/-- The 64-word message schedule of a 16-word block. -/
def schedule (block : List Nat) : List Nat :=
  ((List.range 48).foldl (fun l _ => schedStep l) block.reverse).reverse

/-- One SHA-256 round; `kw` is the round constant already added to the
schedule word. -/
def roundStep (st : List Nat) (kw : Nat) : List Nat :=
  match st with
  | [a, b, c, d, e, f, g, h] =>
    let t1 := add32 (add32 h (bigSigma1 e)) (add32 (shaCh e f g) kw)
    let t2 := add32 (bigSigma0 a) (shaMaj a b c)
    [add32 t1 t2, a, b, c, add32 d t1, e, f, g]
  | other => other

/-- SHA-256 compression of one 16-word block into the running hash value. -/
def compress (hv : List Nat) (block : List Nat) : List Nat :=
  let kw := (shaK.zip (schedule block)).map fun p => add32 p.1 p.2
  let st := kw.foldl roundStep hv
  (hv.zip st).map fun p => add32 p.1 p.2

/-- The `n` big-endian bytes of `v`. -/
def bytesBE (n v : Nat) : List Nat :=
  (List.range n).map fun i => (v >>> (8 * (n - 1 - i))) % 256

/-- Group bytes into big-endian 32-bit words. -/
def toWordsBE : List Nat → List Nat
  | b0 :: b1 :: b2 :: b3 :: rest => (((b0 * 256 + b1) * 256 + b2) * 256 + b3) :: toWordsBE rest
  | _ => []

/-- SHA-256 padding: `0x80`, zeros to 56 mod 64, then the 8-byte bit length. -/
def padMessage (m : List Nat) : List Nat :=
  let zeros := (120 - (m.length + 1) % 64) % 64
  m ++ [0x80] ++ List.replicate zeros 0 ++ bytesBE 8 (m.length * 8)

/-- SHA-256 of a byte string, as its 32 digest bytes (`hashlib.sha256(...).digest()`). -/
def sha256 (m : List Nat) : List Nat :=
  let ws := toWordsBE (padMessage m)
  let blocks := (List.range (ws.length / 16)).map fun i => (ws.drop (16 * i)).take 16
  ((blocks.foldl compress shaH0).map (bytesBE 4)).flatten

/-- HMAC-SHA256 (`hmac.new(key, msg, hashlib.sha256).digest()`), SHA-256 block
size 64: a key longer than one block is first hashed, the key is zero-padded
to the block size, and the digest is `H((K ⊕ opad) ++ H((K ⊕ ipad) ++ msg))`. -/
def hmacSha256 (key msg : List Nat) : List Nat :=
  let k0 := if 64 < key.length then sha256 key else key
  let kp := k0 ++ List.replicate (64 - k0.length) 0
  sha256 ((kp.map fun b => Nat.xor b 0x5c) ++ sha256 ((kp.map fun b => Nat.xor b 0x36) ++ msg))

/-- Lowercase hex digit characters. -/
def hexDigitChar (n : Nat) : Char := "0123456789abcdef".toList.getD n '0'

/-- Lowercase hex rendering of a byte string (`.hexdigest()`), as characters. -/
def hexOfBytes (bs : List Nat) : List Char :=
  bs.foldr (fun b acc => hexDigitChar (b / 16 % 16) :: hexDigitChar (b % 16) :: acc) []

/-- `hexdigest()` as a `String`. -/
def hexdigest (bs : List Nat) : String := String.mk (hexOfBytes bs)

/-- UTF-8 encoding of one code point (Python `str.encode("utf-8")`, per char). -/
def utf8Char (n : Nat) : List Nat :=
  if n < 0x80 then [n]
  else if n < 0x800 then [0xc0 + n / 64, 0x80 + n % 64]
  else if n < 0x10000 then [0xe0 + n / 4096, 0x80 + n / 64 % 64, 0x80 + n % 64]
  else [0xf0 + n / 262144, 0x80 + n / 4096 % 64, 0x80 + n / 64 % 64, 0x80 + n % 64]

/-- UTF-8 bytes of a string (Python `str.encode("utf-8")`). -/
def utf8Bytes (s : String) : List Nat :=
  s.data.foldr (fun c acc => utf8Char c.toNat ++ acc) []

/-! ## `verify_sumsub_webhook_signature` (app/integrations/sumsub_webhook.py) -/

/-- The literal `"sha256="` of sumsub_webhook.py line 23. -/
def sha256Lit : List Char := "sha256=".toList

/-- Python `header_signature.replace("sha256=", "")`: remove every
non-overlapping occurrence of the exact, case-sensitive literal `"sha256="`,
scanning left to right. -/
def replaceSha256 : List Char → List Char
  | [] => []
  | c :: cs =>
    if sha256Lit.isPrefixOf (c :: cs) then replaceSha256 (cs.drop 6)
    else c :: replaceSha256 cs
termination_by s => s.length
decreasing_by
  · simp only [List.length_drop, List.length_cons]
    omega
  · simp only [List.length_cons]
    omega

/-- Python `a or b` on strings combined with a default: the first truthy
(nonempty, present) string, else the fallback. -/
def orElseStr (a : Option String) (fallback : String) : String :=
  match a with
  | some s => if s = "" then fallback else s
  | none => fallback

/-- `verify_sumsub_webhook_signature(raw_body, header_signature)`
(sumsub_webhook.py lines 9-24).  The secret falls back from
`settings.sumsub_webhook_secret` to `settings.sumsub_secret_key` to `""` and
is UTF-8 encoded; verification fails when the secret or the header is absent
or empty; otherwise the hex HMAC-SHA256 of the raw body is compared
(`hmac.compare_digest`, i.e. equality) against the header with every
occurrence of the literal `"sha256="` removed. -/
def verifySumsubWebhookSignature (webhookSecret secretKey : Option String)
    (rawBody : List Nat) (headerSignature : Option String) : Bool :=
  let secret := utf8Bytes (orElseStr webhookSecret (orElseStr secretKey ""))
  if secret = [] then false
  else
    match headerSignature with
    | none => false
    | some hs =>
      if hs = "" then false
      else
        let expected := hexOfBytes (hmacSha256 secret rawBody)
        expected == replaceSha256 hs.toList

/-! ## KYC rows and the applicant-creation handler (app/routers/kyc.py) -/

/-- A row of the `kyc_status` table (app/models/kyc.py); the primary key and
timestamps play no role in the checked claims. -/
structure KycRow where
  user_id : Nat
  external_user_id : String
  sumsub_applicant_id : Option String
  status : String
  review_result : Option String
deriving DecidableEq, Repr

/-- Python truthiness of an optional string (`None` and `""` are falsy). -/
def truthyOpt : Option String → Bool
  | none => false
  | some s => s ≠ ""

/-- Outcome of the outbound `SumsubClient.create_applicant` call, as the
handler observes it: a 2xx body whose `"id"` field may be absent, an
`httpx.HTTPStatusError` with its status code and the `description` string the
handler extracts from the error body, or any other exception. -/
inductive SumsubReply where
  | ok (appId : Option String)
  | httpErr (code : Nat) (description : String)
  | exn
deriving DecidableEq, Repr

/-- The `KycApplicantResponse` schema (kyc.py lines 31-34). -/
structure ApplicantResp where
  applicant_id : Option String
  status : String
  review_result : Option String
deriving DecidableEq, Repr

/-- Update the first row satisfying `p` (SQLAlchemy mutation of the first
result of a filtered query, then commit). -/
def updateFirst {α : Type} (p : α → Bool) (f : α → α) : List α → List α
  | [] => []
  | x :: xs => if p x then f x :: xs else x :: updateFirst p f xs

/-- The upsert and response tail of `create_applicant` (kyc.py lines 170-194):
update the existing row for the user or insert a fresh one, commit, re-read,
and build the response from the saved row. -/
def finishUpsert (db : List KycRow) (uid : Nat) (ext : String)
    (aid : Option String) (st : String) :
    Except Nat ApplicantResp × List KycRow × Bool :=
  let db2 :=
    if (db.find? fun r => r.user_id == uid).isSome then
      updateFirst (fun r => r.user_id == uid)
        (fun r => { r with external_user_id := ext, sumsub_applicant_id := aid, status := st }) db
    else
      db ++ [⟨uid, ext, aid, st, none⟩]
  match db2.find? fun r => r.user_id == uid with
  | some saved => (Except.ok ⟨saved.sumsub_applicant_id, saved.status, saved.review_result⟩, db2, true)
  | none => (Except.ok ⟨aid, st, none⟩, db2, true)

/-- The outbound call and error handling of `create_applicant`
(kyc.py lines 119-194), entered only when no stored applicant id
short-circuits: a 2xx reply with a truthy id upserts with status `created`
(an untruthy id raises, re-caught as 502); a 409 reply parses the applicant
id out of the description and upserts with status `already_exists` (502 when
unparsable); every other error becomes 502.  The `Bool` records that the
outbound provider call was made. -/
def proceedCreate (db : List KycRow) (uid : Nat) (ext : String)
    (reply : SumsubReply) : Except Nat ApplicantResp × List KycRow × Bool :=
  match reply with
  | .ok appId =>
    if truthyOpt appId then finishUpsert db uid ext appId "created"
    else (Except.error 502, db, true)
  | .httpErr code desc =>
    if code == 409 then
      match extract409Str desc with
      | some pid => finishUpsert db uid ext (some pid) "already_exists"
      | none => (Except.error 502, db, true)
    else (Except.error 502, db, true)
  | .exn => (Except.error 502, db, true)

/-- `create_applicant` (kyc.py lines 99-194).  Inputs: whether the user row
exists, the current `kyc_status` table, the user id, and the provider reply
oracle (consulted only if an outbound call happens).  Output: the HTTP
response (`Except Nat` carrying the `HTTPException` status code on failure),
the new table, and whether the outbound provider call was made.  The
`HTTPException(500)` raised when a 2xx body lacks an applicant id is caught
by the handler's own `except Exception` clause and re-raised as 502. -/
def createApplicant (userExists : Bool) (db : List KycRow) (uid : Nat)
    (reply : SumsubReply) : Except Nat ApplicantResp × List KycRow × Bool :=
  if !userExists then (Except.error 404, db, false)
  else
    let ext := "user-" ++ toString uid
    match db.find? fun r => r.user_id == uid with
    | some row =>
      if truthyOpt row.sumsub_applicant_id then
        (Except.ok ⟨row.sumsub_applicant_id,
                    if row.status = "" then "already_exists" else row.status,
                    row.review_result⟩, db, false)
      else
        proceedCreate db uid ext reply
    | none => proceedCreate db uid ext reply

/-! ## The Sumsub webhook handler (app/routers/kyc.py lines 197-241) -/

/-- Python `f"{x}"` of an optional string: `None` renders as `"None"`. -/
def pyStrOpt : Option String → String
  | none => "None"
  | some s => s

/-- The status-transition function of the webhook handler (kyc.py lines
214-230): `applicantReviewed` with reviewAnswer GREEN maps to `approved`,
RED to `rejected`, anything else to `pending`; every other event type maps
to `pending`. -/
def webhookNewStatus (eventType : Option String) (reviewAnswer : Option String) : String :=
  if eventType == some "applicantReviewed" then
    if reviewAnswer == some "GREEN" then "approved"
    else if reviewAnswer == some "RED" then "rejected"
    else "pending"
  else "pending"

/-- The parsed webhook body as the handler reads it: `data.get("type")`,
`data.get("data", {}).get("applicantId")`, and the two fields of
`payload.get("reviewResult", {})`.  Absent JSON keys are `none`. -/
structure WebhookEvent where
  eventType : Option String
  applicantId : Option String
  reviewStatus : Option String
  reviewAnswer : Option String
deriving DecidableEq, Repr

/-- The ad-hoc JSON response of the webhook endpoint. -/
structure WebhookResp where
  status : String
  reason : Option String
deriving DecidableEq, Repr

/-- `sumsub_webhook` (kyc.py lines 197-241).  The signature-verification
result is computed and then deliberately ignored (`pass`, line 202-204).
A falsy `applicantId` or an applicant id matching no stored row returns an
`ignored` response and leaves the table unchanged; otherwise the first row
with that applicant id gets the new status, and the review result when one
was built (only for `applicantReviewed` events; the built string is truthy).
The handler raises no `HTTPException`, so the result is always `Except.ok`. -/
def sumsubWebhook (db : List KycRow) (sigOk : Bool) (ev : WebhookEvent) :
    Except Nat WebhookResp × List KycRow :=
  let _unusedSignatureCheck := sigOk
  match ev.applicantId with
  | none => (Except.ok ⟨"ignored", some "no applicantId"⟩, db)
  | some aid =>
    if aid = "" then (Except.ok ⟨"ignored", some "no applicantId"⟩, db)
    else
      let newStatus := webhookNewStatus ev.eventType ev.reviewAnswer
      let reviewResult : Option String :=
        if ev.eventType == some "applicantReviewed" then
          some (pyStrOpt ev.reviewStatus ++ ":" ++ pyStrOpt ev.reviewAnswer)
        else none
      match db.find? fun r => r.sumsub_applicant_id == some aid with
      | none => (Except.ok ⟨"ignored", some "KYC record not found"⟩, db)
      | some _ =>
        let db2 := updateFirst (fun r => r.sumsub_applicant_id == some aid)
          (fun r => { r with
            status := newStatus,
            review_result :=
              match reviewResult with
              | some rr => if rr = "" then r.review_result else some rr
              | none => r.review_result }) db
        (Except.ok ⟨"ok", none⟩, db2)

/-! ## Payments: `Decimal` arithmetic and handlers (app/routers/payments.py) -/

/-- Round a rational to the nearest integer, ties to the even neighbour: the
rounding of Python `Decimal.quantize` under the default context rounding
`ROUND_HALF_EVEN`. -/
def roundHalfEven (x : ℚ) : ℤ :=
  let f : ℤ := ⌊x⌋
  let r : ℚ := x - f
  if r < 1/2 then f
  else if 1/2 < r then f + 1
  else if 2 ∣ f then f else f + 1

/-- `d.quantize(Decimal("0.01"))`: round to two decimal places with the
default `ROUND_HALF_EVEN`.  `Decimal` carries exact decimal values, modelled
as exact rationals. -/
def quantize2 (x : ℚ) : ℚ := (roundHalfEven (x * 100) : ℚ) / 100

/-- `(amount * rate).quantize(Decimal("0.01"))` — the target-amount
computation of `get_fx_rate` (payments.py line 71) and `sandbox_transfer`
(payments.py line 133). -/
def targetAmount (amount rate : ℚ) : ℚ := quantize2 (amount * rate)

/-- Round half up to the nearest integer.  Modelled from the spec: the
rounding mode the specification names for the target amount
(`half-up ... rounding`), stated for comparison with the code's rounding. -/
def roundHalfUp (x : ℚ) : ℤ := ⌊x + 1/2⌋

/-- Modelled from the spec: `source_amount × rate` rounded to 2 decimal
places with half-up rounding, the specification's description of the
target amount. -/
def targetAmountSpecHalfUp (amount rate : ℚ) : ℚ :=
  (roundHalfUp (amount * rate * 100) : ℤ) / (100 : ℚ)

/-! ## The Wise FX client (app/integrations/wise_client.py) -/

/-- JSON values as `resp.json()` yields them; numbers are exact rationals
(the handler converts them through `Decimal(str(...))`). -/
inductive Json where
  | jnull
  | jbool (b : Bool)
  | jnum (q : ℚ)
  | jstr (s : String)
  | jarr (items : List Json)
  | jobj (fields : List (String × Json))

/-- Dictionary lookup `d[k]` / `d.get(k)` on a JSON object's fields. -/
def jsonLookup (fields : List (String × Json)) (k : String) : Option Json :=
  (fields.find? fun kv => kv.1 == k).map fun kv => kv.2

/-- The Python exceptions the embedded payment paths can surface. -/
inductive PyErr where
  | httpStatusError (code : Nat)
  | indexError
  | keyError
  | typeError
  | invalidOperation
  | attributeError
deriving DecidableEq, Repr

/-- `Decimal(str(v))` on a JSON leaf.  The claims only exercise numeric
rate fields; `str` of a non-numeric value (`None`, `True`, a list, a dict)
is not a decimal literal and raises `InvalidOperation`. -/
def decimalOfJson : Json → Except PyErr ℚ
  | .jnum q => Except.ok q
  | _ => Except.error PyErr.invalidOperation

/-- The response-parsing tail of `WiseClient.get_rate` (wise_client.py lines
40-44): `data[0]["rate"]` when the body is a list — `data[0]` raises
`IndexError` on an empty list, `["rate"]` raises `KeyError` when absent —
and `data["rate"]` otherwise (`TypeError` when the body is not a dict). -/
def getRateParse (data : Json) : Except PyErr ℚ :=
  match data with
  | .jarr items =>
    match items with
    | [] => Except.error PyErr.indexError
    | first :: _ =>
      match first with
      | .jobj fields =>
        match jsonLookup fields "rate" with
        | some v => decimalOfJson v
        | none => Except.error PyErr.keyError
      | _ => Except.error PyErr.typeError
  | .jobj fields =>
    match jsonLookup fields "rate" with
    | some v => decimalOfJson v
    | none => Except.error PyErr.keyError
  | _ => Except.error PyErr.typeError

/-- `WiseClient.get_rate` (wise_client.py lines 26-44) after the HTTP
exchange: a status of 400 or above raises `httpx.HTTPStatusError`
(the declared upstream-error condition); otherwise the body is parsed by
`getRateParse`. -/
def getRate (statusCode : Nat) (body : Json) : Except PyErr ℚ :=
  if 400 ≤ statusCode then Except.error (PyErr.httpStatusError statusCode)
  else getRateParse body

/-! ## `sandbox_transfer` (app/routers/payments.py lines 87-155) -/

/-- Python `str.upper()` (the currency codes are ASCII). -/
def pyUpper (s : String) : String := s.map Char.toUpper

/-- A row of the `transactions` table, the fields `sandbox_transfer` writes. -/
structure TxRow where
  user_id : Nat
  account_id : Nat
  txType : String
  amount : ℚ
  currency : String
deriving DecidableEq, Repr

/-- The `SandboxTransferResponse` schema (payments.py lines 36-44). -/
structure TransferResp where
  user_id : Nat
  account_id : Nat
  source_currency : String
  target_currency : String
  source_amount : ℚ
  estimated_target_amount : ℚ
  fx_rate : ℚ
  wise_quote_snapshot : Json

/-- The `SandboxTransferRequest` schema (payments.py lines 28-33). -/
structure TransferReq where
  user_id : Nat
  account_id : Nat
  source_currency : String
  target_currency : String
  source_amount : ℚ

/-- `str(e)` for the exception raised by the missing-attribute access
`client.create_sandbox_quote` (`WiseClient` in wise_client.py defines only
`__init__`, `_auth_headers` and `get_rate`). -/
def sandboxQuoteErrMsg : String :=
  "'WiseClient' object has no attribute 'create_sandbox_quote'"

/-- The sandbox-quote call of `sandbox_transfer` (payments.py line 124).
`WiseClient` (wise_client.py lines 11-44) defines no `create_sandbox_quote`
method, so the attribute access raises `AttributeError` on every call. -/
def wiseCreateSandboxQuote (sourceCurrency targetCurrency : String)
    (sourceAmount : ℚ) : Except PyErr Json :=
  let _ := (sourceCurrency, targetCurrency, sourceAmount)
  Except.error PyErr.attributeError

/-- `sandbox_transfer` (payments.py lines 87-155): validate user and account
(404), fetch the rate (502 on any failure), fetch the sandbox quote —
whose failure is swallowed into the `{"error": str(e)}` marker object —
compute the estimated target amount, append the `fx_sandbox` transaction
row, and build the response. -/
def sandboxTransfer (userExists accountExists : Bool) (txs : List TxRow)
    (req : TransferReq) (rateReply : Except PyErr ℚ) :
    Except Nat TransferResp × List TxRow :=
  if !userExists then (Except.error 404, txs)
  else if !accountExists then (Except.error 404, txs)
  else
    match rateReply with
    | .error _ => (Except.error 502, txs)
    | .ok rate =>
      let quoteJson : Json :=
        match wiseCreateSandboxQuote req.source_currency req.target_currency req.source_amount with
        | .ok j => j
        | .error _ => Json.jobj [("error", Json.jstr sandboxQuoteErrMsg)]
      let est := quantize2 (req.source_amount * rate)
      let tx : TxRow :=
        ⟨req.user_id, req.account_id, "fx_sandbox", req.source_amount, pyUpper req.source_currency⟩
      (Except.ok ⟨req.user_id, req.account_id, pyUpper req.source_currency,
                  pyUpper req.target_currency, req.source_amount, est, rate, quoteJson⟩,
       txs ++ [tx])

/-! ## Brokerage onboarding (app/routers/brokerage.py lines 48-136) -/

/-- A row of the `brokerage_accounts` table (app/models/brokerage.py);
`id` is the autoincrement primary key. -/
structure BrokerageRow where
  id : Nat
  user_id : Nat
  broker : String
  external_customer_id : String
  external_account_id : String
  status : String
deriving DecidableEq, Repr

/-- The `BrokerageOnboardResponse` schema (brokerage.py lines 37-42). -/
structure BrokerageResp where
  user_id : Nat
  broker : String
  external_customer_id : String
  external_account_id : String
  status : String
deriving DecidableEq, Repr

/-- Fold step selecting the row of maximal id (ties keep the earlier row;
primary keys are unique). -/
def pickLatest (acc : Option BrokerageRow) (r : BrokerageRow) : Option BrokerageRow :=
  match acc with
  | none => some r
  | some b => if b.id < r.id then some r else some b

/-- The existing-account query of `onboard_brokerage` (brokerage.py lines
75-83): filter on `(user_id, broker="drivewealth")`, `ORDER BY id DESC`,
first row — the matching row of maximal id (primary keys are unique). -/
def latestBrokerage (rows : List BrokerageRow) (uid : Nat) : Option BrokerageRow :=
  (rows.filter fun r => r.user_id == uid && r.broker == "drivewealth").foldl pickLatest none

/-- The behaviour of `DriveWealthClient` (drivewealth_client.py): in mock
mode `create_customer` and `create_account` fabricate hex-suffixed ids;
with the mock off both raise `NotImplementedError`. -/
inductive DwReply where
  | mock (custHex acctHex : String)
  | notImplemented
deriving DecidableEq, Repr

/-- `onboard_brokerage` (brokerage.py lines 54-136): 404 for a missing user;
an existing `(user, "drivewealth")` row is returned as-is with no provider
call and no insert; otherwise customer and account are provisioned
(`NotImplementedError` surfaces as 501) and a new row with status
`created` and the next primary key is committed.  The `Bool` records
whether the provider client was called. -/
def onboardBrokerage (userExists : Bool) (rows : List BrokerageRow) (nextId : Nat)
    (uid : Nat) (reply : DwReply) :
    Except Nat BrokerageResp × (List BrokerageRow × Nat) × Bool :=
  if !userExists then (Except.error 404, (rows, nextId), false)
  else
    match latestBrokerage rows uid with
    | some existing =>
      (Except.ok ⟨existing.user_id, existing.broker, existing.external_customer_id,
                  existing.external_account_id, existing.status⟩,
       (rows, nextId), false)
    | none =>
      match reply with
      | .notImplemented => (Except.error 501, (rows, nextId), true)
      | .mock custHex acctHex =>
        let row : BrokerageRow :=
          ⟨nextId, uid, "drivewealth", "DW-CUST-" ++ custHex, "DW-ACC-" ++ acctHex, "created"⟩
        (Except.ok ⟨row.user_id, row.broker, row.external_customer_id,
                    row.external_account_id, row.status⟩,
         (rows ++ [row], nextId + 1), true)

/-! ## Theorems -/

/-- C5: The webhook handler's status transition function maps an
`applicantReviewed` event with reviewAnswer GREEN to `approved`, RED to
`rejected`, any other reviewAnswer to `pending`, and any event of a
different type to `pending`. -/
theorem c5_webhook_status_transition :
    webhookNewStatus (some "applicantReviewed") (some "GREEN") = "approved"
    ∧ webhookNewStatus (some "applicantReviewed") (some "RED") = "rejected"
    ∧ (∀ a : Option String, a ≠ some "GREEN" → a ≠ some "RED" →
        webhookNewStatus (some "applicantReviewed") a = "pending")
    ∧ (∀ t a : Option String, t ≠ some "applicantReviewed" →
        webhookNewStatus t a = "pending") := by
  refine ⟨rfl, rfl, ?_, ?_⟩
  · intro a h1 h2
    simp [webhookNewStatus, h1, h2]
  · intro t a ht
    simp [webhookNewStatus, ht]

/-- Witness for C5 at concrete inputs: a YELLOW review answer and a
non-review event type both land in `pending`. -/
theorem c5_webhook_status_transition_witness :
    webhookNewStatus (some "applicantReviewed") (some "YELLOW") = "pending"
    ∧ webhookNewStatus (some "applicantPending") (some "GREEN") = "pending" :=
  ⟨c5_webhook_status_transition.2.2.1 (some "YELLOW") (by decide) (by decide),
   c5_webhook_status_transition.2.2.2 (some "applicantPending") (some "GREEN") (by decide)⟩

/-- C9: With a sub-400 status, `get_rate` on an empty-list body fails with
`IndexError` (the unguarded `data[0]`), not the declared upstream-error
condition; and a successful parse of a list body requires the list to be
nonempty with a `"rate"` field in its first element. -/
theorem c9_get_rate_list_branch :
    (∀ code : Nat, code < 400 → getRate code (Json.jarr []) = Except.error PyErr.indexError)
    ∧ (∀ code k : Nat, code < 400 →
        getRate code (Json.jarr []) ≠ Except.error (PyErr.httpStatusError k))
    ∧ (∀ (code : Nat) (items : List Json) (q : ℚ),
        getRate code (Json.jarr items) = Except.ok q →
        items ≠ [] ∧ ∃ fields v, items.head? = some (Json.jobj fields)
          ∧ jsonLookup fields "rate" = some v ∧ v = Json.jnum q) := by
  have hempty : ∀ code : Nat, code < 400 →
      getRate code (Json.jarr []) = Except.error PyErr.indexError := by
    intro code h
    rw [getRate, if_neg (by omega : ¬ 400 ≤ code)]
    rfl
  refine ⟨hempty, ?_, ?_⟩
  · intro code k h
    rw [hempty code h]
    simp
  · intro code items q h
    by_cases hc : 400 ≤ code
    · rw [getRate, if_pos hc] at h
      exact absurd h (by simp)
    · rw [getRate, if_neg hc] at h
      cases items with
      | nil => simp [getRateParse] at h
      | cons first rest =>
        refine ⟨by simp, ?_⟩
        cases first with
        | jobj fields =>
          refine ⟨fields, ?_⟩
          cases hl : jsonLookup fields "rate" with
          | none => simp [getRateParse, hl] at h
          | some v =>
            cases v with
            | jnum q' =>
              simp only [getRateParse, hl, decimalOfJson, Except.ok.injEq] at h
              exact ⟨Json.jnum q', by simp, rfl, by rw [h]⟩
            | jnull => simp [getRateParse, hl, decimalOfJson] at h
            | jbool b => simp [getRateParse, hl, decimalOfJson] at h
            | jstr sv => simp [getRateParse, hl, decimalOfJson] at h
            | jarr xs => simp [getRateParse, hl, decimalOfJson] at h
            | jobj fs => simp [getRateParse, hl, decimalOfJson] at h
        | jnull => simp [getRateParse] at h
        | jbool b => simp [getRateParse] at h
        | jnum qq => simp [getRateParse] at h
        | jstr sv => simp [getRateParse] at h
        | jarr xs => simp [getRateParse] at h

theorem c9_get_rate_list_branch_witness :
    getRate 200 (Json.jarr []) = Except.error PyErr.indexError :=
  c9_get_rate_list_branch.1 200 (by omega)

/-- C10: Every successful sandbox-transfer response carries the
`{"error": ...}` marker object as its quote snapshot — `WiseClient` defines
no sandbox-quote operation, so the quote call always raises — and the
transfer still succeeds, appending its `fx_sandbox` transaction row;
conversely every run with a valid user, account and rate succeeds. -/
theorem c10_sandbox_quote_always_error_marker :
    (∀ (ue ae : Bool) (txs : List TxRow) (req : TransferReq) (rr : Except PyErr ℚ)
       (resp : TransferResp) (txs' : List TxRow),
       sandboxTransfer ue ae txs req rr = (Except.ok resp, txs') →
       resp.wise_quote_snapshot = Json.jobj [("error", Json.jstr sandboxQuoteErrMsg)]
       ∧ txs' = txs ++ [⟨req.user_id, req.account_id, "fx_sandbox",
                         req.source_amount, pyUpper req.source_currency⟩])
    ∧ (∀ (txs : List TxRow) (req : TransferReq) (rate : ℚ),
        sandboxTransfer true true txs req (Except.ok rate)
          = (Except.ok ⟨req.user_id, req.account_id, pyUpper req.source_currency,
                        pyUpper req.target_currency, req.source_amount,
                        quantize2 (req.source_amount * rate), rate,
                        Json.jobj [("error", Json.jstr sandboxQuoteErrMsg)]⟩,
             txs ++ [⟨req.user_id, req.account_id, "fx_sandbox",
                      req.source_amount, pyUpper req.source_currency⟩])) := by
  constructor
  · intro ue ae txs req rr resp txs' h
    cases ue with
    | false => simp [sandboxTransfer] at h
    | true =>
      cases ae with
      | false => simp [sandboxTransfer] at h
      | true =>
        cases rr with
        | error e => simp [sandboxTransfer] at h
        | ok rate =>
          simp only [sandboxTransfer, Bool.not_true, Bool.false_eq_true, if_false,
            wiseCreateSandboxQuote, Prod.mk.injEq, Except.ok.injEq] at h
          obtain ⟨hresp, htxs⟩ := h
          subst hresp
          exact ⟨rfl, htxs.symm⟩
  · intro txs req rate
    rfl

/-- Witness for C10: a concrete successful transfer run, with the marker
quote snapshot and the appended transaction row. -/
theorem c10_sandbox_quote_always_error_marker_witness :
    (TransferResp.mk 1 2 (pyUpper "brl") (pyUpper "usd") 100 (quantize2 (100 * 5)) 5
        (Json.jobj [("error", Json.jstr sandboxQuoteErrMsg)])).wise_quote_snapshot
      = Json.jobj [("error", Json.jstr sandboxQuoteErrMsg)]
    ∧ ([] : List TxRow) ++ [⟨1, 2, "fx_sandbox", 100, pyUpper "brl"⟩]
      = ([] : List TxRow) ++ [⟨1, 2, "fx_sandbox", 100, pyUpper "brl"⟩] :=
  c10_sandbox_quote_always_error_marker.1 true true [] ⟨1, 2, "brl", "usd", 100⟩
    (Except.ok 5) _ _ rfl

/-- C8: The webhook endpoint never rejects: a request whose applicant id
matches no stored row gets the `ignored` response with the table unchanged,
the handler's result does not depend on the signature-verification outcome
(a failed signature rejects nothing), and every run returns a 200-class
(`Except.ok`) response. -/
theorem c8_webhook_silently_ignores :
    (∀ (db : List KycRow) (sig : Bool) (ev : WebhookEvent) (aid : String),
       ev.applicantId = some aid → aid ≠ "" →
       db.find? (fun r => r.sumsub_applicant_id == some aid) = none →
       sumsubWebhook db sig ev = (Except.ok ⟨"ignored", some "KYC record not found"⟩, db))
    ∧ (∀ (db : List KycRow) (ev : WebhookEvent),
        sumsubWebhook db false ev = sumsubWebhook db true ev)
    ∧ (∀ (db : List KycRow) (sig : Bool) (ev : WebhookEvent),
        (sumsubWebhook db sig ev).1.isOk = true) := by
  refine ⟨?_, ?_, ?_⟩
  · intro db sig ev aid hev haid hfind
    simp [sumsubWebhook, hev, haid, hfind]
  · intro db ev
    rfl
  · intro db sig ev
    rw [sumsubWebhook]
    cases ev.applicantId with
    | none => rfl
    | some aid =>
      by_cases haid : aid = ""
      · simp only [haid, if_pos rfl]
        rfl
      · simp only [haid, if_neg haid]
        cases db.find? (fun r => r.sumsub_applicant_id == some aid) with
        | none => rfl
        | some r => rfl

/-- Witness for C8: a concrete unknown applicant id is ignored and the
single-row table is left unchanged. -/
theorem c8_webhook_silently_ignores_witness :
    sumsubWebhook [⟨7, "user-7", some "appA", "created", none⟩] false
        ⟨some "applicantReviewed", some "appB", some "completed", some "GREEN"⟩
      = (Except.ok ⟨"ignored", some "KYC record not found"⟩,
         [⟨7, "user-7", some "appA", "created", none⟩]) :=
  c8_webhook_silently_ignores.1 [⟨7, "user-7", some "appA", "created", none⟩] false
    ⟨some "applicantReviewed", some "appB", some "completed", some "GREEN"⟩ "appB"
    rfl (by decide) (by decide)

theorem find?_updateFirst {α : Type} (p : α → Bool) (f : α → α) (l : List α) (row : α)
    (hf : ∀ x, p x = true → p (f x) = true)
    (h : l.find? p = some row) :
    (updateFirst p f l).find? p = some (f row) := by
  induction l with
  | nil => simp at h
  | cons x xs ih =>
    by_cases hx : p x = true
    · rw [List.find?_cons_of_pos _ hx] at h
      obtain rfl : x = row := Option.some.inj h
      rw [updateFirst, if_pos hx]
      exact List.find?_cons_of_pos _ (hf x hx)
    · rw [List.find?_cons_of_neg _ (by simpa using hx)] at h
      rw [updateFirst, if_neg hx, List.find?_cons_of_neg _ (by simpa using hx)]
      exact ih h

theorem primary409_ne_nil {s : List Char} {t : List Char} (h : primary409 s = some t) :
    t ≠ [] := by
  simp only [primary409] at h
  split at h
  · next hc =>
    obtain rfl : _ = t := Option.some.inj h
    rcases Bool.and_eq_true .. |>.mp hc with ⟨h1, _⟩
    simpa [List.reverse_eq_nil_iff] using h1
  · exact absurd h (by simp)

theorem lastAlnumToken_ne_nil {l t : List Char} (h : lastAlnumToken l = some t) :
    t ≠ [] := by
  simp only [lastAlnumToken] at h
  split at h
  · exact absurd h (by simp)
  · next hc =>
    obtain rfl : _ = t := Option.some.inj h
    simpa [List.reverse_eq_nil_iff] using hc

theorem extract409_ne_nil {d t : List Char} (h : extract409 d = some t) : t ≠ [] := by
  rw [extract409] at h
  split at h
  · exact absurd h (by simp)
  · split at h
    · next heq => exact primary409_ne_nil (heq.trans h)
    · exact lastAlnumToken_ne_nil h

theorem extract409Str_ne_empty {d : String} {s : String} (h : extract409Str d = some s) :
    s ≠ "" := by
  rw [extract409Str] at h
  rcases Option.map_eq_some'.mp h with ⟨t, ht, rfl⟩
  have := extract409_ne_nil ht
  intro hc
  exact this (by simpa [String.ext_iff] using hc)

theorem truthyOpt_of_ne {s : String} (h : s ≠ "") : truthyOpt (some s) = true := by
  simp [truthyOpt, h]

theorem createApplicant_early (db : List KycRow) (uid : Nat) (r : SumsubReply)
    (row : KycRow) (hrow : db.find? (fun x => x.user_id == uid) = some row)
    (htr : truthyOpt row.sumsub_applicant_id = true) :
    createApplicant true db uid r
      = (Except.ok ⟨row.sumsub_applicant_id,
                    if row.status = "" then "already_exists" else row.status,
                    row.review_result⟩, db, false) := by
  simp [createApplicant, hrow, htr]

theorem finishUpsert_eq_pos (db : List KycRow) (uid : Nat) (ext aid st : String)
    (row : KycRow) (hrow : db.find? (fun r => r.user_id == uid) = some row) :
    finishUpsert db uid ext (some aid) st
      = (Except.ok ⟨some aid, st, row.review_result⟩,
         updateFirst (fun r => r.user_id == uid)
           (fun r => { r with external_user_id := ext, sumsub_applicant_id := some aid,
                              status := st }) db,
         true) := by
  have hfu := find?_updateFirst (fun r => r.user_id == uid)
    (fun r => { r with external_user_id := ext, sumsub_applicant_id := some aid,
                       status := st }) db row (fun x hx => hx) hrow
  simp [finishUpsert, hrow, hfu]

theorem finishUpsert_eq_neg (db : List KycRow) (uid : Nat) (ext aid st : String)
    (hnone : db.find? (fun r => r.user_id == uid) = none) :
    finishUpsert db uid ext (some aid) st
      = (Except.ok ⟨some aid, st, none⟩,
         db ++ [⟨uid, ext, some aid, st, none⟩], true) := by
  have hfind : (db ++ [(⟨uid, ext, some aid, st, none⟩ : KycRow)]).find?
        (fun r => r.user_id == uid)
      = some ⟨uid, ext, some aid, st, none⟩ := by
    rw [List.find?_append, hnone]
    simp
  simp [finishUpsert, hnone, hfind]

theorem createApplicant_after_upsert (db db1 : List KycRow) (uid : Nat) (ext a st : String)
    (r2 : SumsubReply) (resp : ApplicantResp) (b1 : Bool)
    (ha : a ≠ "") (hst : st ≠ "")
    (h : finishUpsert db uid ext (some a) st = (Except.ok resp, db1, b1)) :
    createApplicant true db1 uid r2 = (Except.ok resp, db1, false) := by
  rcases hfind : db.find? (fun r => r.user_id == uid) with _ | row
  · rw [finishUpsert_eq_neg db uid ext a st hfind] at h
    rw [Prod.mk.injEq, Prod.mk.injEq, Except.ok.injEq] at h
    obtain ⟨hresp, hdb, -⟩ := h
    subst hdb
    subst hresp
    have hfind2 : (db ++ [(⟨uid, ext, some a, st, none⟩ : KycRow)]).find?
          (fun x => x.user_id == uid)
        = some ⟨uid, ext, some a, st, none⟩ := by
      rw [List.find?_append, hfind]
      simp
    rw [createApplicant_early _ _ r2 (⟨uid, ext, some a, st, none⟩ : KycRow) hfind2
      (truthyOpt_of_ne ha)]
    simp [if_neg hst]
  · rw [finishUpsert_eq_pos db uid ext a st row hfind] at h
    rw [Prod.mk.injEq, Prod.mk.injEq, Except.ok.injEq] at h
    obtain ⟨hresp, hdb, -⟩ := h
    subst hdb
    subst hresp
    have hfu := find?_updateFirst (fun r => r.user_id == uid)
      (fun r => { r with external_user_id := ext, sumsub_applicant_id := some a,
                         status := st }) db row (fun x hx => hx) hfind
    rw [createApplicant_early _ _ r2 _ hfu (truthyOpt_of_ne ha)]
    simp [if_neg hst]

theorem proceed_then_second (db db1 : List KycRow) (uid : Nat) (ext : String)
    (r1 r2 : SumsubReply) (resp : ApplicantResp) (b1 : Bool)
    (h : proceedCreate db uid ext r1 = (Except.ok resp, db1, b1)) :
    createApplicant true db1 uid r2 = (Except.ok resp, db1, false) := by
  cases r1 with
  | ok appId =>
    simp only [proceedCreate] at h
    by_cases hap : truthyOpt appId = true
    · rcases appId with _ | a
      · simp [truthyOpt] at hap
      · have ha : a ≠ "" := by simpa [truthyOpt] using hap
        rw [if_pos hap] at h
        exact createApplicant_after_upsert db db1 uid ext a "created" r2 resp b1 ha
          (by decide) h
    · rw [if_neg hap] at h
      exact absurd h (by simp)
  | httpErr code desc =>
    simp only [proceedCreate] at h
    by_cases hc : (code == 409) = true
    · rw [if_pos hc] at h
      rcases hx : extract409Str desc with _ | pid
      · rw [hx] at h
        exact absurd h (by simp)
      · rw [hx] at h
        exact createApplicant_after_upsert db db1 uid ext pid "already_exists" r2 resp b1
          (extract409Str_ne_empty hx) (by decide) h
    · rw [if_neg hc] at h
      exact absurd h (by simp)
  | exn =>
    simp only [proceedCreate] at h
    exact absurd h (by simp)

/-- C2: Applicant creation is idempotent per user.  When the stored KYC row
already carries a (truthy) applicant id, the handler performs no outbound
call and returns the stored applicant id, status and review result with the
table unchanged; and after any successful first call, a second call for the
same user makes no outbound call and returns the same response over the
unchanged table — so two calls perform at most one outbound call. -/
theorem c2_create_applicant_idempotent :
    (∀ (db : List KycRow) (uid : Nat) (reply : SumsubReply) (row : KycRow) (a : String),
       db.find? (fun r => r.user_id == uid) = some row →
       row.sumsub_applicant_id = some a → a ≠ "" → row.status ≠ "" →
       createApplicant true db uid reply =
         (Except.ok ⟨some a, row.status, row.review_result⟩, db, false))
    ∧ (∀ (db db1 : List KycRow) (uid : Nat) (r1 r2 : SumsubReply)
         (resp : ApplicantResp) (b1 : Bool),
       createApplicant true db uid r1 = (Except.ok resp, db1, b1) →
       createApplicant true db1 uid r2 = (Except.ok resp, db1, false)) := by
  constructor
  · intro db uid reply row a hfind haid hane hst
    have htr : truthyOpt row.sumsub_applicant_id = true := by
      rw [haid]
      exact truthyOpt_of_ne hane
    rw [createApplicant_early db uid reply row hfind htr, haid, if_neg hst]
  · intro db db1 uid r1 r2 resp b1 h
    rcases hfind : db.find? (fun r => r.user_id == uid) with _ | row
    · have hred : createApplicant true db uid r1
          = proceedCreate db uid ("user-" ++ toString uid) r1 := by
        simp [createApplicant, hfind]
      rw [hred] at h
      exact proceed_then_second db db1 uid _ r1 r2 resp b1 h
    · by_cases htr : truthyOpt row.sumsub_applicant_id = true
      · rw [createApplicant_early db uid r1 row hfind htr] at h
        rw [Prod.mk.injEq, Prod.mk.injEq, Except.ok.injEq] at h
        obtain ⟨hresp, hdb, -⟩ := h
        subst hdb
        subst hresp
        rw [createApplicant_early db uid r2 row hfind htr]
      · have hred : createApplicant true db uid r1
            = proceedCreate db uid ("user-" ++ toString uid) r1 := by
          simp [createApplicant, hfind, htr]
        rw [hred] at h
        exact proceed_then_second db db1 uid _ r1 r2 resp b1 h

/-- Witness for C2: with a stored applicant id in place, a concrete call
skips the provider (whatever the provider oracle would have answered) and
returns the stored state over the unchanged table. -/
theorem c2_create_applicant_idempotent_witness :
    createApplicant true [⟨7, "user-7", some "appA", "approved", some "completed:GREEN"⟩] 7
        SumsubReply.exn
      = (Except.ok ⟨some "appA", "approved", some "completed:GREEN"⟩,
         [⟨7, "user-7", some "appA", "approved", some "completed:GREEN"⟩], false) :=
  c2_create_applicant_idempotent.1
    [⟨7, "user-7", some "appA", "approved", some "completed:GREEN"⟩] 7 SumsubReply.exn
    ⟨7, "user-7", some "appA", "approved", some "completed:GREEN"⟩ "appA"
    (by decide) rfl (by decide) (by decide)

theorem foldl_pickLatest_mem (l : List BrokerageRow) :
    ∀ (acc : Option BrokerageRow) (r : BrokerageRow),
      l.foldl pickLatest acc = some r → acc = some r ∨ r ∈ l := by
  induction l with
  | nil => intro acc r h; exact Or.inl h
  | cons x xs ih =>
    intro acc r h
    rcases ih (pickLatest acc x) r h with h1 | h2
    · rcases acc with _ | b
      · simp only [pickLatest, Option.some.injEq] at h1
        exact Or.inr (by simp [h1])
      · simp only [pickLatest] at h1
        split at h1
        · exact Or.inr (by simp [Option.some.inj h1])
        · exact Or.inl h1
    · exact Or.inr (List.mem_cons_of_mem _ h2)

theorem latestBrokerage_append (rows : List BrokerageRow) (uid : Nat) (x : BrokerageRow)
    (hu : x.user_id = uid) (hb : x.broker = "drivewealth")
    (hlt : ∀ r ∈ rows, r.id < x.id) :
    latestBrokerage (rows ++ [x]) uid = some x := by
  rw [latestBrokerage, List.filter_append]
  have hx : (x.user_id == uid && x.broker == "drivewealth") = true := by
    simp [hu, hb]
  simp only [List.filter_cons, hx, if_pos, List.filter_nil, List.foldl_append]
  rcases hacc : (rows.filter fun r => r.user_id == uid && r.broker == "drivewealth").foldl
      pickLatest none with _ | b
  · simp [pickLatest, hacc]
  · have hbmem : b ∈ rows.filter fun r => r.user_id == uid && r.broker == "drivewealth" := by
      rcases foldl_pickLatest_mem _ none b hacc with hcontra | hmem
      · exact absurd hcontra (by simp)
      · exact hmem
    have hlt' := hlt b (List.mem_of_mem_filter hbmem)
    simp [pickLatest, hacc, hlt']

/-- C7: Brokerage onboarding is idempotent per user and broker: with an
existing `(user, "drivewealth")` row the handler returns the latest such row
(maximal id) unchanged, with no provider call and no insert; and after any
successful call a second call returns the identical record, again with no
provider call and no new row. -/
theorem c7_onboard_brokerage_idempotent :
    (∀ (rows : List BrokerageRow) (nextId uid : Nat) (reply : DwReply) (row : BrokerageRow),
       latestBrokerage rows uid = some row →
       onboardBrokerage true rows nextId uid reply =
         (Except.ok ⟨row.user_id, row.broker, row.external_customer_id,
                     row.external_account_id, row.status⟩, (rows, nextId), false))
    ∧ (∀ (rows rows1 : List BrokerageRow) (nextId n1 uid : Nat) (r1 r2 : DwReply)
         (resp : BrokerageResp) (b1 : Bool),
       (∀ r ∈ rows, r.id < nextId) →
       onboardBrokerage true rows nextId uid r1 = (Except.ok resp, (rows1, n1), b1) →
       onboardBrokerage true rows1 n1 uid r2 = (Except.ok resp, (rows1, n1), false)) := by
  have hearly : ∀ (rows : List BrokerageRow) (nextId uid : Nat) (reply : DwReply)
      (row : BrokerageRow), latestBrokerage rows uid = some row →
      onboardBrokerage true rows nextId uid reply =
        (Except.ok ⟨row.user_id, row.broker, row.external_customer_id,
                    row.external_account_id, row.status⟩, (rows, nextId), false) := by
    intro rows nextId uid reply row h
    simp [onboardBrokerage, h]
  refine ⟨hearly, ?_⟩
  intro rows rows1 nextId n1 uid r1 r2 resp b1 hbound h
  rcases hl : latestBrokerage rows uid with _ | row
  · cases r1 with
    | notImplemented => simp [onboardBrokerage, hl] at h
    | mock custHex acctHex =>
      have hred : onboardBrokerage true rows nextId uid (DwReply.mock custHex acctHex)
          = (Except.ok ⟨uid, "drivewealth", "DW-CUST-" ++ custHex, "DW-ACC-" ++ acctHex,
                        "created"⟩,
             (rows ++ [⟨nextId, uid, "drivewealth", "DW-CUST-" ++ custHex,
                        "DW-ACC-" ++ acctHex, "created"⟩], nextId + 1), true) := by
        simp [onboardBrokerage, hl]
      rw [hred] at h
      rw [Prod.mk.injEq, Prod.mk.injEq, Prod.mk.injEq, Except.ok.injEq] at h
      obtain ⟨hresp, ⟨hrows, hn⟩, -⟩ := h
      subst hresp
      subst hrows
      subst hn
      have happ := latestBrokerage_append rows uid
        ⟨nextId, uid, "drivewealth", "DW-CUST-" ++ custHex, "DW-ACC-" ++ acctHex, "created"⟩
        rfl rfl hbound
      exact hearly _ _ uid r2 _ happ
  · have hred := hearly rows nextId uid r1 row hl
    rw [hred] at h
    rw [Prod.mk.injEq, Prod.mk.injEq, Prod.mk.injEq] at h
    obtain ⟨hresp, ⟨hrows, hn⟩, -⟩ := h
    subst hrows
    subst hn
    rw [← hresp]
    exact hearly _ _ uid r2 row hl

/-- Witness for C7: a concrete table already holding a drivewealth row for
the user is returned unchanged with no provider call. -/
theorem c7_onboard_brokerage_idempotent_witness :
    onboardBrokerage true [⟨5, 3, "drivewealth", "DW-CUST-aa", "DW-ACC-bb", "created"⟩] 6 3
        DwReply.notImplemented
      = (Except.ok ⟨3, "drivewealth", "DW-CUST-aa", "DW-ACC-bb", "created"⟩,
         ([⟨5, 3, "drivewealth", "DW-CUST-aa", "DW-ACC-bb", "created"⟩], 6), false) :=
  c7_onboard_brokerage_idempotent.1
    [⟨5, 3, "drivewealth", "DW-CUST-aa", "DW-ACC-bb", "created"⟩] 6 3
    DwReply.notImplemented ⟨5, 3, "drivewealth", "DW-CUST-aa", "DW-ACC-bb", "created"⟩
    (by decide)

theorem roundHalfEven_dist_le (x : ℚ) : |x - (roundHalfEven x : ℚ)| ≤ 1/2 := by
  have hfl : (⌊x⌋ : ℚ) ≤ x := Int.floor_le x
  have hfl1 : x < ⌊x⌋ + 1 := Int.lt_floor_add_one x
  rw [roundHalfEven]
  split_ifs with h1 h2 h3
  · rw [abs_of_nonneg (by linarith)]
    linarith
  · push_cast
    rw [abs_of_nonpos (by linarith)]
    linarith
  · rw [abs_of_nonneg (by linarith)]
    linarith
  · push_cast
    rw [abs_of_nonpos (by linarith)]
    linarith

theorem roundHalfEven_even_of_tie (x : ℚ) (h : |x - (roundHalfEven x : ℚ)| = 1/2) :
    2 ∣ roundHalfEven x := by
  have hfl : (⌊x⌋ : ℚ) ≤ x := Int.floor_le x
  have hfl1 : x < ⌊x⌋ + 1 := Int.lt_floor_add_one x
  by_cases h1 : x - (⌊x⌋ : ℚ) < 1/2
  · exfalso
    rw [roundHalfEven, if_pos h1] at h
    rw [abs_of_nonneg (by linarith)] at h
    linarith
  · by_cases h2 : (1/2 : ℚ) < x - (⌊x⌋ : ℚ)
    · exfalso
      rw [roundHalfEven, if_neg h1, if_pos h2] at h
      push_cast at h
      rw [abs_of_nonpos (by linarith)] at h
      linarith
    · by_cases h3 : 2 ∣ ⌊x⌋
      · rw [roundHalfEven, if_neg h1, if_neg h2, if_pos h3]
        exact h3
      · rw [roundHalfEven, if_neg h1, if_neg h2, if_neg h3]
        omega

theorem roundHalfEven_nearest (x : ℚ) (n : ℤ) :
    |x - (roundHalfEven x : ℚ)| ≤ |x - (n : ℚ)| := by
  have hfl : (⌊x⌋ : ℚ) ≤ x := Int.floor_le x
  have hfl1 : x < ⌊x⌋ + 1 := Int.lt_floor_add_one x
  have hlow : x - (n : ℚ) ≤ |x - (n : ℚ)| := le_abs_self _
  have hhigh : (n : ℚ) - x ≤ |x - (n : ℚ)| := by
    rw [abs_sub_comm]
    exact le_abs_self _
  have hsplit : ((n : ℚ) ≤ (⌊x⌋ : ℚ)) ∨ ((⌊x⌋ : ℚ) + 1 ≤ (n : ℚ)) := by
    rcases Int.le_or_lt n ⌊x⌋ with hc | hc
    · exact Or.inl (by exact_mod_cast hc)
    · exact Or.inr (by exact_mod_cast hc)
  rw [roundHalfEven]
  split_ifs with h1 h2 h3
  · rw [abs_of_nonneg (by linarith)]
    rcases hsplit with hc | hc
    · linarith
    · linarith
  · push_cast
    rw [abs_of_nonpos (by linarith)]
    rcases hsplit with hc | hc
    · linarith
    · linarith
  · rw [abs_of_nonneg (by linarith)]
    rcases hsplit with hc | hc
    · linarith
    · linarith
  · push_cast
    rw [abs_of_nonpos (by linarith)]
    rcases hsplit with hc | hc
    · linarith
    · linarith

theorem roundHalfEven_five_halves : roundHalfEven (5/2 : ℚ) = 2 := by
  have hf : ⌊(5/2 : ℚ)⌋ = 2 := by norm_num
  rw [roundHalfEven, hf]
  norm_num

/-- C6 counterexample: at source_amount 100 and rate 0.00025 the product is
0.025; the code's `quantize(Decimal("0.01"))` rounds half-even to 0.02 while
the claimed half-up rounding gives 0.03, so the claim fails as stated. -/
theorem c6_target_amount_counterexample :
    targetAmount 100 (1/4000) = 1/50
    ∧ targetAmountSpecHalfUp 100 (1/4000) = 3/100
    ∧ targetAmount 100 (1/4000) ≠ targetAmountSpecHalfUp 100 (1/4000) := by
  have hin : ((100 : ℚ) * (1/4000)) * 100 = 5/2 := by norm_num
  have h1 : targetAmount 100 (1/4000) = 1/50 := by
    rw [targetAmount, quantize2, hin, roundHalfEven_five_halves]
    norm_num
  have h2 : targetAmountSpecHalfUp 100 (1/4000) = 3/100 := by
    rw [targetAmountSpecHalfUp, roundHalfUp]
    rw [show (100 : ℚ) * (1/4000) * 100 + 1/2 = 3 by norm_num]
    norm_num
  refine ⟨h1, h2, ?_⟩
  rw [h1, h2]
  norm_num

/-- C6 amended: the computed target amount is `source_amount × rate` rounded
to 2 decimal places half-even (banker's rounding, the default of Python
`Decimal.quantize`), not half-up: the rounded value is within half a cent of
the exact product, ties land on an even cent count, no integer cent count is
closer, and the spec's own example 100 × 5.1234 = 512.34 holds. -/
theorem c6_target_amount_half_even :
    (∀ amount rate : ℚ,
       targetAmount amount rate = (roundHalfEven (amount * rate * 100) : ℚ) / 100)
    ∧ (∀ x : ℚ, |x - (roundHalfEven x : ℚ)| ≤ 1/2)
    ∧ (∀ x : ℚ, |x - (roundHalfEven x : ℚ)| = 1/2 → 2 ∣ roundHalfEven x)
    ∧ (∀ (x : ℚ) (n : ℤ), |x - (roundHalfEven x : ℚ)| ≤ |x - (n : ℚ)|)
    ∧ targetAmount 100 (51234/10000) = 51234/100 := by
  refine ⟨fun amount rate => rfl, roundHalfEven_dist_le, roundHalfEven_even_of_tie,
    roundHalfEven_nearest, ?_⟩
  have hin : ((100 : ℚ) * (51234/10000)) * 100 = 51234 := by norm_num
  have hr : roundHalfEven (51234 : ℚ) = 51234 := by
    have hf : ⌊(51234 : ℚ)⌋ = 51234 := by norm_num
    rw [roundHalfEven, hf]
    norm_num
  rw [targetAmount, quantize2, hin, hr]
  norm_num

/-- Witness for C6 (amended): at x = 5/2 the tie case fires and the rounded
value 2 is even. -/
theorem c6_target_amount_half_even_witness :
    |(5/2 : ℚ) - (roundHalfEven (5/2 : ℚ) : ℚ)| = 1/2 ∧ 2 ∣ roundHalfEven (5/2 : ℚ) := by
  have h : |(5/2 : ℚ) - (roundHalfEven (5/2 : ℚ) : ℚ)| = 1/2 := by
    rw [roundHalfEven_five_halves]
    norm_num
  exact ⟨h, c6_target_amount_half_even.2.2.1 (5/2) h⟩

theorem space_not_alnum {c : Char} (h : isPySpace c = true) : isAlnumChar c = false := by
  simp only [isPySpace, Bool.or_eq_true, beq_iff_eq] at h
  rcases h with ((((h | h) | h) | h) | h) | h <;> subst h <;> decide

theorem alnum_not_space {c : Char} (h : isAlnumChar c = true) : isPySpace c = false := by
  cases hs : isPySpace c with
  | false => rfl
  | true => exact absurd h (by simp [space_not_alnum hs])

theorem dropWhile_eq_self_of_head {α : Type} {p : α → Bool} {l : List α} {c : α}
    (h : l.head? = some c) (hc : p c = false) : l.dropWhile p = l := by
  cases l with
  | nil => simp at h
  | cons x xs =>
    obtain rfl : x = c := Option.some.inj h
    rw [List.dropWhile_cons, if_neg (by simp [hc])]

theorem takeWhile_eq_nil_of_head {α : Type} {p : α → Bool} {l : List α}
    (h : ∀ c, l.head? = some c → p c = false) : l.takeWhile p = [] := by
  cases l with
  | nil => rfl
  | cons x xs => rw [List.takeWhile_cons, if_neg (by simp [h x rfl])]

theorem takeWhile_eq_nil_of_all {α : Type} {p : α → Bool} {l : List α}
    (h : ∀ c ∈ l, p c = false) : l.takeWhile p = [] := by
  cases l with
  | nil => rfl
  | cons x xs => rw [List.takeWhile_cons, if_neg (by simp [h x (List.mem_cons_self _ _)])]

theorem dropWhile_eq_nil_of_all {α : Type} {p : α → Bool} {l : List α}
    (h : ∀ c ∈ l, p c = true) : l.dropWhile p = [] := by
  induction l with
  | nil => rfl
  | cons x xs ih =>
    rw [List.dropWhile_cons, if_pos (h x (List.mem_cons_self _ _))]
    exact ih fun c hc => h c (List.mem_cons_of_mem _ hc)

theorem dropWhile_append_head {α : Type} {p : α → Bool} (a : List α) {b : List α} {c : α}
    (hb : b.head? = some c) (hc : p c = false) :
    (a ++ b).dropWhile p = a.dropWhile p ++ b := by
  rw [List.dropWhile_append]
  split
  · next he =>
    rw [dropWhile_eq_self_of_head hb hc, List.isEmpty_iff.mp he]
    rfl
  · rfl

theorem takeWhile_append_all {α : Type} {p : α → Bool} {a : List α}
    (ha : ∀ x ∈ a, p x = true) (b : List α) :
    (a ++ b).takeWhile p = a ++ b.takeWhile p := by
  induction a with
  | nil => rfl
  | cons x xs ih =>
    rw [List.cons_append, List.takeWhile_cons, if_pos (ha x (List.mem_cons_self _ _)),
      ih fun y hy => ha y (List.mem_cons_of_mem _ hy)]
    rfl

theorem dropWhile_append_all {α : Type} {p : α → Bool} {a : List α}
    (ha : ∀ x ∈ a, p x = true) (b : List α) :
    (a ++ b).dropWhile p = b.dropWhile p := by
  induction a with
  | nil => rfl
  | cons x xs ih =>
    rw [List.cons_append, List.dropWhile_cons, if_pos (ha x (List.mem_cons_self _ _))]
    exact ih fun y hy => ha y (List.mem_cons_of_mem _ hy)

theorem mem_pyStrip {c : Char} {l : List Char} (h : c ∈ pyStrip l) : c ∈ l := by
  rw [pyStrip] at h
  rw [List.mem_reverse] at h
  have h2 := (List.dropWhile_sublist isPySpace).mem h
  rw [List.mem_reverse] at h2
  exact (List.dropWhile_sublist isPySpace).mem h2

theorem primary409_of_pattern (p w t : List Char)
    (hw : ∀ c ∈ w, isPySpace c = true)
    (ht : t ≠ []) (hta : ∀ c ∈ t, isAlnumChar c = true) :
    primary409 (p ++ (alreadyExistsLit ++ (w ++ t))) = some t := by
  obtain ⟨c, cs, hcs⟩ := List.exists_cons_of_ne_nil
    (fun h => ht (List.reverse_eq_nil_iff.mp h) : t.reverse ≠ [])
  have hc_alnum : isAlnumChar c = true :=
    hta c (List.mem_reverse.mp (hcs ▸ List.mem_cons_self _ _))
  have hta' : ∀ x ∈ t.reverse, isAlnumChar x = true :=
    fun x hx => hta x (List.mem_reverse.mp hx)
  have hw' : ∀ x ∈ w.reverse, isPySpace x = true :=
    fun x hx => hw x (List.mem_reverse.mp hx)
  have hrest_head : ∀ d : Char,
      (w.reverse ++ (alreadyExistsLit.reverse ++ p.reverse)).head? = some d →
      isAlnumChar d = false := by
    intro d hd
    rcases hwrev : w.reverse with _ | ⟨d0, ds⟩
    · rw [hwrev, List.nil_append,
        show alreadyExistsLit.reverse = ':' :: "stsixe ydaerla".toList from rfl] at hd
      obtain rfl := Option.some.inj hd
      decide
    · rw [hwrev, List.cons_append] at hd
      obtain rfl := Option.some.inj hd
      exact space_not_alnum (hw' _ (hwrev ▸ List.mem_cons_self _ _))
  have hrev : (p ++ (alreadyExistsLit ++ (w ++ t))).reverse
      = t.reverse ++ (w.reverse ++ (alreadyExistsLit.reverse ++ p.reverse)) := by
    simp [List.reverse_append]
  have h1 : (t.reverse ++ (w.reverse ++ (alreadyExistsLit.reverse ++ p.reverse))).dropWhile
      isPySpace = t.reverse ++ (w.reverse ++ (alreadyExistsLit.reverse ++ p.reverse)) := by
    apply dropWhile_eq_self_of_head (c := c)
    · rw [hcs]
      rfl
    · exact alnum_not_space hc_alnum
  have h2 : (t.reverse ++ (w.reverse ++ (alreadyExistsLit.reverse ++ p.reverse))).takeWhile
      isAlnumChar = t.reverse := by
    rw [takeWhile_append_all hta', takeWhile_eq_nil_of_head hrest_head, List.append_nil]
  have h3 : (t.reverse ++ (w.reverse ++ (alreadyExistsLit.reverse ++ p.reverse))).dropWhile
      isAlnumChar = w.reverse ++ (alreadyExistsLit.reverse ++ p.reverse) := by
    rw [dropWhile_append_all hta']
    rcases hwrev : w.reverse with _ | ⟨d0, ds⟩
    · rw [List.nil_append]
      apply dropWhile_eq_self_of_head (c := ':')
      · rw [show alreadyExistsLit.reverse = ':' :: "stsixe ydaerla".toList from rfl]
        rfl
      · decide
    · apply dropWhile_eq_self_of_head (c := d0)
      · rw [List.cons_append]
        rfl
      · exact space_not_alnum (hw' d0 (hwrev ▸ List.mem_cons_self _ _))
  have h4 : (w.reverse ++ (alreadyExistsLit.reverse ++ p.reverse)).dropWhile isPySpace
      = alreadyExistsLit.reverse ++ p.reverse := by
    rw [dropWhile_append_all hw']
    apply dropWhile_eq_self_of_head (c := ':')
    · rw [show alreadyExistsLit.reverse = ':' :: "stsixe ydaerla".toList from rfl]
      rfl
    · decide
  simp only [primary409, hrev, h1, h2, h3, h4]
  rw [if_pos]
  · rw [List.reverse_reverse]
  · simp only [Bool.and_eq_true, decide_eq_true_eq, ne_eq, List.reverse_eq_nil_iff]
    exact ⟨by simpa using ht, List.isPrefixOf_iff_prefix.mpr (List.prefix_append _ _)⟩

theorem pyStrip_pattern (p w t : List Char)
    (ht : t ≠ []) (hta : ∀ c ∈ t, isAlnumChar c = true) :
    pyStrip (p ++ (alreadyExistsLit ++ (w ++ t)))
      = p.dropWhile isPySpace ++ (alreadyExistsLit ++ (w ++ t)) := by
  obtain ⟨c, cs, hcs⟩ := List.exists_cons_of_ne_nil
    (fun h => ht (List.reverse_eq_nil_iff.mp h) : t.reverse ≠ [])
  have hc_alnum : isAlnumChar c = true :=
    hta c (List.mem_reverse.mp (hcs ▸ List.mem_cons_self _ _))
  have h1 : (p ++ (alreadyExistsLit ++ (w ++ t))).dropWhile isPySpace
      = p.dropWhile isPySpace ++ (alreadyExistsLit ++ (w ++ t)) := by
    apply dropWhile_append_head p (c := 'a')
    · rw [show alreadyExistsLit = 'a' :: "lready exists:".toList from rfl]
      rfl
    · decide
  have h2 : (p.dropWhile isPySpace ++ (alreadyExistsLit ++ (w ++ t))).reverse.dropWhile
      isPySpace = (p.dropWhile isPySpace ++ (alreadyExistsLit ++ (w ++ t))).reverse := by
    apply dropWhile_eq_self_of_head (c := c)
    · simp only [List.reverse_append]
      rw [List.append_assoc, List.append_assoc, hcs]
      rfl
    · exact alnum_not_space hc_alnum
  rw [pyStrip, h1, h2, List.reverse_reverse]

/-- C1: The 409-description extractor returns the token after
`"already exists:"` whenever the (stripped) description ends with that
pattern followed by whitespace and a nonempty alphanumeric token; it returns
`None` on the empty description and on descriptions with no alphanumeric
character; otherwise — when the end-anchored pattern does not match — it
falls back to the last alphanumeric token; and the spec's own example
description yields `695b2a5fd78655e152921a6c`. -/
theorem c1_extract_applicant_id :
    (∀ p w t : List Char, (∀ c ∈ w, isPySpace c = true) → t ≠ [] →
       (∀ c ∈ t, isAlnumChar c = true) →
       extract409 (p ++ (alreadyExistsLit ++ (w ++ t))) = some t)
    ∧ extract409 [] = none
    ∧ (∀ d : List Char, (∀ c ∈ d, isAlnumChar c = false) → extract409 d = none)
    ∧ (∀ d : List Char, d ≠ [] → primary409 (pyStrip d) = none →
        extract409 d = lastAlnumToken d)
    ∧ extract409Str
        "Applicant with external user id 'user-49' already exists: 695b2a5fd78655e152921a6c"
      = some "695b2a5fd78655e152921a6c" := by
  have hfallback : ∀ d : List Char, d ≠ [] → primary409 (pyStrip d) = none →
      extract409 d = lastAlnumToken d := by
    intro d hdn hp
    rw [extract409, if_neg hdn, hp]
  refine ⟨?_, rfl, ?_, hfallback, by decide⟩
  · intro p w t hw ht hta
    have hdesc : p ++ (alreadyExistsLit ++ (w ++ t)) ≠ [] := by
      simp [alreadyExistsLit]
    rw [extract409, if_neg hdesc, pyStrip_pattern p w t ht hta,
      primary409_of_pattern (p.dropWhile isPySpace) w t hw ht hta]
  · intro d hd
    by_cases hdn : d = []
    · rw [extract409, if_pos hdn]
    · have hp : primary409 (pyStrip d) = none := by
        have htok : ((pyStrip d).reverse.dropWhile isPySpace).takeWhile isAlnumChar = [] := by
          apply takeWhile_eq_nil_of_all
          intro c hc
          exact hd c (mem_pyStrip (List.mem_reverse.mp
            ((List.dropWhile_sublist isPySpace).mem hc)))
        simp [primary409, htok]
      rw [hfallback d hdn hp]
      have hdrop : d.reverse.dropWhile (fun c => !isAlnumChar c) = [] := by
        apply dropWhile_eq_nil_of_all
        intro c hc
        simp [hd c (List.mem_reverse.mp hc)]
      simp [lastAlnumToken, hdrop]

/-- Witness for C1: a concrete description matching the pattern yields its
trailing token, and an all-punctuation description yields nothing. -/
theorem c1_extract_applicant_id_witness :
    extract409 ("xx ".toList ++ (alreadyExistsLit ++ ([' '] ++ "a1b2".toList)))
      = some "a1b2".toList
    ∧ extract409 ":-;, !".toList = none :=
  ⟨c1_extract_applicant_id.1 "xx ".toList [' '] "a1b2".toList
      (by decide) (by decide) (by decide),
   c1_extract_applicant_id.2.2.1 ":-;, !".toList (by decide)⟩

theorem mem_hexOfBytes {c : Char} : ∀ {bs : List Nat}, c ∈ hexOfBytes bs →
    c ∈ "0123456789abcdef".toList := by
  intro bs
  induction bs with
  | nil => intro h; simp [hexOfBytes] at h
  | cons b rest ih =>
    intro h
    have hd : ∀ n : Nat, hexDigitChar n ∈ "0123456789abcdef".toList := by
      intro n
      rw [hexDigitChar]
      rcases Nat.lt_or_ge n 16 with hn | hn
      · interval_cases n <;> decide
      · rw [List.getD_eq_default _ _ (by simpa using hn)]
        decide
    simp only [hexOfBytes, List.foldr_cons, List.mem_cons] at h
    rcases h with h | h | h
    · exact h ▸ hd _
    · exact h ▸ hd _
    · exact ih h

theorem hexOfBytes_no_s {c : Char} {bs : List Nat} (h : c ∈ hexOfBytes bs) : c ≠ 's' := by
  have halpha : ∀ x ∈ "0123456789abcdef".toList, x ≠ 's' := by decide
  exact halpha c (mem_hexOfBytes h)

theorem replaceSha256_eq_self : ∀ {l : List Char}, (∀ c ∈ l, c ≠ 's') →
    replaceSha256 l = l := by
  intro l
  induction l with
  | nil => intro _; simp [replaceSha256]
  | cons c cs ih =>
    intro h
    have hpre : sha256Lit.isPrefixOf (c :: cs) = false := by
      rw [show sha256Lit = 's' :: "ha256=".toList from rfl]
      simp only [List.isPrefixOf, Bool.and_eq_false_iff]
      left
      simpa using (h c (List.mem_cons_self _ _)).symm
    simp only [replaceSha256]
    rw [if_neg (by simp [hpre]), ih fun x hx => h x (List.mem_cons_of_mem _ hx)]

theorem replaceSha256_strip_lit (l : List Char) :
    replaceSha256 (sha256Lit ++ l) = replaceSha256 l := by
  have hpre : sha256Lit.isPrefixOf ('s' :: ("ha256=".toList ++ l)) = true :=
    List.isPrefixOf_iff_prefix.mpr (List.prefix_append sha256Lit l)
  rw [show sha256Lit ++ l = 's' :: ("ha256=".toList ++ l) from rfl]
  simp only [replaceSha256]
  rw [if_pos hpre]
  rfl

theorem roundStep_length (st : List Nat) (kw : Nat) : (roundStep st kw).length = st.length := by
  rcases st with _ | ⟨a, _ | ⟨b, _ | ⟨c, _ | ⟨d, _ | ⟨e, _ | ⟨f, _ | ⟨g, _ | ⟨h, _ | ⟨i, rest⟩⟩⟩⟩⟩⟩⟩⟩⟩ <;> rfl

theorem foldl_roundStep_length (kws : List Nat) :
    ∀ st : List Nat, (kws.foldl roundStep st).length = st.length := by
  induction kws with
  | nil => intro st; rfl
  | cons k ks ih =>
    intro st
    rw [List.foldl_cons, ih, roundStep_length]

theorem compress_length (hv block : List Nat) : (compress hv block).length = hv.length := by
  simp [compress, foldl_roundStep_length]

theorem foldl_compress_length (blocks : List (List Nat)) :
    ∀ hv : List Nat, (blocks.foldl compress hv).length = hv.length := by
  induction blocks with
  | nil => intro hv; rfl
  | cons b bs ih =>
    intro hv
    rw [List.foldl_cons, ih, compress_length]

theorem sha256_length (m : List Nat) : (sha256 m).length = 32 := by
  have hbytes : ∀ v : Nat, (bytesBE 4 v).length = 4 := by
    intro v
    simp [bytesBE]
  rw [sha256, List.length_flatten, List.map_map]
  have : (List.map (List.length ∘ bytesBE 4)
      (List.foldl compress shaH0
        ((List.range ((toWordsBE (padMessage m)).length / 16)).map
          fun i => ((toWordsBE (padMessage m)).drop (16 * i)).take 16)))
      = List.replicate 8 4 := by
    have hlen := foldl_compress_length
      ((List.range ((toWordsBE (padMessage m)).length / 16)).map
        fun i => ((toWordsBE (padMessage m)).drop (16 * i)).take 16) shaH0
    rw [show (shaH0 : List Nat).length = 8 from rfl] at hlen
    calc List.map (List.length ∘ bytesBE 4) _
        = List.map (Function.const Nat 4) _ := by
          apply List.map_congr_left
          intro a _
          simp [hbytes]
      _ = List.replicate 8 4 := by rw [List.map_const, hlen]
  rw [this]
  simp

theorem sha256_ne_nil (m : List Nat) : sha256 m ≠ [] := by
  intro h
  have := sha256_length m
  rw [h] at this
  simp at this

theorem hexOfBytes_ne_nil {bs : List Nat} (h : bs ≠ []) : hexOfBytes bs ≠ [] := by
  rcases bs with _ | ⟨b, rest⟩
  · exact absurd rfl h
  · simp [hexOfBytes]

theorem utf8Char_ne_nil (n : Nat) : utf8Char n ≠ [] := by
  rw [utf8Char]
  split_ifs <;> simp

theorem utf8Bytes_ne_nil {s : String} (h : s ≠ "") : utf8Bytes s ≠ [] := by
  rcases s with ⟨data⟩
  rcases data with _ | ⟨c, cs⟩
  · exact absurd rfl h
  · simp only [utf8Bytes, List.foldr_cons]
    simp [utf8Char_ne_nil]

theorem hexdigest_ne_empty {bs : List Nat} (h : bs ≠ []) : hexdigest bs ≠ "" := by
  intro hc
  apply hexOfBytes_ne_nil h
  simpa [hexdigest, String.ext_iff] using hc

theorem hmacSha256_ne_nil (key msg : List Nat) : hmacSha256 key msg ≠ [] :=
  sha256_ne_nil _

theorem replaceSha256_hexOfBytes (bs : List Nat) :
    replaceSha256 (hexOfBytes bs) = hexOfBytes bs :=
  replaceSha256_eq_self fun _ hc => hexOfBytes_no_s hc

theorem verify_correct_sig (sk : String) (b : List Nat) (hsk : sk ≠ "") :
    verifySumsubWebhookSignature (some sk) none b
      (some (hexdigest (hmacSha256 (utf8Bytes sk) b))) = true := by
  have hsecret : orElseStr (some sk) (orElseStr none "") = sk := by
    simp [orElseStr, hsk]
  have hhs_ne : hexdigest (hmacSha256 (utf8Bytes sk) b) ≠ "" :=
    hexdigest_ne_empty (hmacSha256_ne_nil _ _)
  simp only [verifySumsubWebhookSignature, hsecret]
  rw [if_neg (by simpa using utf8Bytes_ne_nil hsk), if_neg hhs_ne]
  rw [show (hexdigest (hmacSha256 (utf8Bytes sk) b)).toList
      = hexOfBytes (hmacSha256 (utf8Bytes sk) b) from rfl]
  rw [replaceSha256_hexOfBytes]
  simp

theorem verify_lower_prefixed_sig (sk : String) (b : List Nat) (hsk : sk ≠ "") :
    verifySumsubWebhookSignature (some sk) none b
      (some ("sha256=" ++ hexdigest (hmacSha256 (utf8Bytes sk) b))) = true := by
  have hsecret : orElseStr (some sk) (orElseStr none "") = sk := by
    simp [orElseStr, hsk]
  have hhs_ne : ("sha256=" ++ hexdigest (hmacSha256 (utf8Bytes sk) b)) ≠ "" := by
    intro hc
    have hd := congrArg String.data hc
    rw [String.data_append] at hd
    simp at hd
  simp only [verifySumsubWebhookSignature, hsecret]
  rw [if_neg (by simpa using utf8Bytes_ne_nil hsk), if_neg hhs_ne]
  rw [show ("sha256=" ++ hexdigest (hmacSha256 (utf8Bytes sk) b)).toList
      = sha256Lit ++ hexOfBytes (hmacSha256 (utf8Bytes sk) b) from
    String.data_append _ _]
  rw [replaceSha256_strip_lit, replaceSha256_hexOfBytes]
  simp

theorem hex_beq_upper_cons_false (e rest : List Char)
    (he : ∀ c ∈ e, c ∈ "0123456789abcdef".toList) :
    (e == 'S' :: rest) = false := by
  cases e with
  | nil => rfl
  | cons c cs =>
    have hc : c ≠ 'S' := by
      have hmem := he c (List.mem_cons_self _ _)
      intro hcc
      subst hcc
      exact absurd hmem (by decide)
    simp [BEq.beq, List.beq, hc]

theorem verify_upper_prefixed_sig (sk : String) (b : List Nat) (hsk : sk ≠ "") :
    verifySumsubWebhookSignature (some sk) none b
      (some ("SHA256=" ++ hexdigest (hmacSha256 (utf8Bytes sk) b))) = false := by
  have hsecret : orElseStr (some sk) (orElseStr none "") = sk := by
    simp [orElseStr, hsk]
  have hhs_ne : ("SHA256=" ++ hexdigest (hmacSha256 (utf8Bytes sk) b)) ≠ "" := by
    intro hc
    have hd := congrArg String.data hc
    rw [String.data_append] at hd
    simp at hd
  have hnos : ∀ c ∈ "SHA256=".toList ++ hexOfBytes (hmacSha256 (utf8Bytes sk) b),
      c ≠ 's' := by
    intro c hc
    rcases List.mem_append.mp hc with hc | hc
    · exact (by decide : ∀ x ∈ "SHA256=".toList, x ≠ 's') c hc
    · exact hexOfBytes_no_s hc
  simp only [verifySumsubWebhookSignature, hsecret]
  rw [if_neg (by simpa using utf8Bytes_ne_nil hsk), if_neg hhs_ne]
  rw [show ("SHA256=" ++ hexdigest (hmacSha256 (utf8Bytes sk) b)).toList
      = "SHA256=".toList ++ hexOfBytes (hmacSha256 (utf8Bytes sk) b) from
    String.data_append _ _]
  rw [replaceSha256_eq_self hnos]
  exact hex_beq_upper_cons_false _ _ fun c hc => mem_hexOfBytes hc

/-- C4 counterexample: with secret `topsecret` and body `payload`, the
correct hex HMAC signature verifies, but the same signature with the
uppercase prefix `SHA256=` is rejected — `str.replace("sha256=", "")` is
case-sensitive, so the prefix is not stripped case-insensitively. -/
theorem c4_case_insensitive_strip_counterexample :
    verifySumsubWebhookSignature (some "topsecret") none (utf8Bytes "payload")
      (some ("SHA256="
        ++ hexdigest (hmacSha256 (utf8Bytes "topsecret") (utf8Bytes "payload")))) = false
    ∧ verifySumsubWebhookSignature (some "topsecret") none (utf8Bytes "payload")
      (some (hexdigest (hmacSha256 (utf8Bytes "topsecret") (utf8Bytes "payload")))) = true :=
  ⟨verify_upper_prefixed_sig "topsecret" (utf8Bytes "payload") (by decide),
   verify_correct_sig "topsecret" (utf8Bytes "payload") (by decide)⟩

/-- C4 amended: the verifier strips the exact lowercase literal `"sha256="`
(every occurrence, case-sensitively): for every nonempty secret and body, a
correct signature verifies with or without the lowercase `"sha256="` prefix,
while the uppercase variant `"SHA256="` is not stripped and fails. -/
theorem c4_sha256_prefix_strip :
    ∀ (sk : String) (b : List Nat), sk ≠ "" →
      verifySumsubWebhookSignature (some sk) none b
        (some ("sha256=" ++ hexdigest (hmacSha256 (utf8Bytes sk) b))) = true
      ∧ verifySumsubWebhookSignature (some sk) none b
        (some (hexdigest (hmacSha256 (utf8Bytes sk) b))) = true
      ∧ verifySumsubWebhookSignature (some sk) none b
        (some ("SHA256=" ++ hexdigest (hmacSha256 (utf8Bytes sk) b))) = false :=
  fun sk b hsk =>
    ⟨verify_lower_prefixed_sig sk b hsk, verify_correct_sig sk b hsk,
     verify_upper_prefixed_sig sk b hsk⟩

/-- Witness for C4 (amended) at a concrete secret and body. -/
theorem c4_sha256_prefix_strip_witness :
    verifySumsubWebhookSignature (some "secretB") none [0, 1, 2]
      (some ("sha256=" ++ hexdigest (hmacSha256 (utf8Bytes "secretB") [0, 1, 2]))) = true
    ∧ verifySumsubWebhookSignature (some "secretB") none [0, 1, 2]
      (some (hexdigest (hmacSha256 (utf8Bytes "secretB") [0, 1, 2]))) = true
    ∧ verifySumsubWebhookSignature (some "secretB") none [0, 1, 2]
      (some ("SHA256=" ++ hexdigest (hmacSha256 (utf8Bytes "secretB") [0, 1, 2]))) = false :=
  c4_sha256_prefix_strip "secretB" [0, 1, 2] (by decide)

set_option maxRecDepth 4000 in
/-- Sanity check of the embedded SHA-256 against the standard test vector. -/
theorem sha256_abc_test_vector :
    hexdigest (sha256 (utf8Bytes "abc"))
      = "ba7816bf8f01cfea414140de5dae2223b00361a396177a9cb410ff61f20015ad" := by
  decide

set_option maxRecDepth 8000 in
/-- Sanity check of the embedded HMAC-SHA256 against the standard test vector. -/
theorem hmacSha256_test_vector :
    hexdigest (hmacSha256 (utf8Bytes "key")
        (utf8Bytes "The quick brown fox jumps over the lazy dog"))
      = "f7bc83f430538424b13298e6aa6fb143ef4d59a14946175997479dbc2d1a3cd8" := by
  decide
